import Mathlib

/-!
Shallow embedding of `adb_auto_demo.py` (classes `ADB` and `NodeChecker`).

Python strings are modelled as `List Char` (`PyStr`).  The string methods the
source uses — `str.split(sep)` with a non-empty separator, `str.replace(old, new)`,
`int(s)` — are modelled below with Python's semantics (left-to-right,
non-overlapping occurrences).  `int(s)` is modelled on its core grammar
(optional sign followed by a non-empty digit run); every bounds string the
claims quantify over is of that shape, and every string rejected by the model
is also rejected by Python's `int`.

Calls into external libraries (`lxml`'s `html.parse(...).xpath(...)`, `cv2`,
`uiautomator2`, the filesystem) are not code of this repository; they enter the
embedding as explicit parameters: an xpath evaluation result
(`Except Unit (List Element)`, where `.error` stands for a raised parse/XPath
exception such as lxml's `XPathEvalError` on an invalid expression), a
per-attempt hierarchy oracle (`Nat → ...`) for the polling loops, the
template-matching score matrix for the image pipeline, and a one-file
filesystem for the dump file.  Everything the repository's own lines do with
those results — string surgery, exception scoping, indexing, loop control,
return values — is translated statement by statement from the source.
-/

/-- A Python `str` as a list of characters. -/
abbrev PyStr := List Char

/-- Python exception kinds that the modelled code can raise.  `xpathError`
stands for the lxml parse/XPath-evaluation exceptions. -/
inductive PyErr where
  | keyError
  | valueError
  | indexError
  | typeError
  | xpathError
  deriving DecidableEq, Repr

/-- A Python value appearing in `**kwargs`: either a string (an XPath
condition) or an int (`repeat` / `index`). -/
inductive Val where
  | vstr (s : PyStr)
  | vint (n : Int)
  deriving DecidableEq, Repr

/-- A matched hierarchy node: all the code reads from an lxml element is its
attribute dictionary (`bounds.attrib["bounds"]`). -/
structure Element where
  attrib : List (PyStr × PyStr)
  deriving DecidableEq, Repr

/-- `e.attrib[k]` as a total lookup; `none` models the `KeyError` case. -/
def attribLookup (e : Element) (k : PyStr) : Option PyStr :=
  e.attrib.lookup k

/-- First occurrence of non-empty `sep` in `s`: returns the text before the
occurrence and the text after it, or `none` when `sep` does not occur. -/
def findOcc (sep : PyStr) : PyStr → Option (PyStr × PyStr)
  | [] => none
  | c :: rest =>
    if sep.isPrefixOf (c :: rest) then some ([], (c :: rest).drop sep.length)
    else
      match findOcc sep rest with
      | none => none
      | some (pre, suf) => some (c :: pre, suf)

/-- Fuel-indexed worker for Python `str.split(sep)` (non-empty `sep`).
Each recursive step strictly shortens the string, so `s.length` fuel is
always enough. -/
def pySplitF (sep : PyStr) : Nat → PyStr → List PyStr
  | 0, s => [s]
  | fuel + 1, s =>
    match findOcc sep s with
    | none => [s]
    | some (pre, suf) => pre :: pySplitF sep fuel suf

/-- Python `s.split(sep)` for a non-empty separator (the source only splits on
`"]["` and `","`; Python raises on an empty separator, which never happens
here). -/
def pySplit (sep s : PyStr) : List PyStr :=
  if sep = [] then [s] else pySplitF sep s.length s

/-- Fuel-indexed worker for Python `str.replace(old, new)` (non-empty `old`). -/
def pyReplaceF (old new : PyStr) : Nat → PyStr → PyStr
  | 0, s => s
  | fuel + 1, s =>
    match findOcc old s with
    | none => s
    | some (pre, suf) => pre ++ new ++ pyReplaceF old new fuel suf

/-- Python `s.replace(old, new)` for non-empty `old` (the source only replaces
`"["`). -/
def pyReplace (old new s : PyStr) : PyStr :=
  if old = [] then s else pyReplaceF old new s.length s

/-- Value of a decimal digit character, `none` for non-digits. -/
def charDigit (c : Char) : Option Nat :=
  if c.isDigit then some (c.toNat - 48) else none

/-- A non-empty run of decimal digits, as a natural number. -/
def digitsToNat (cs : PyStr) : Option Nat :=
  if cs = [] then none
  else cs.foldlM (fun acc c => (charDigit c).map (fun d => 10 * acc + d)) 0

/-- Python `int(s)` on its core grammar: optional sign, then a non-empty digit
run.  `none` models the `ValueError` raise. -/
def pyInt (s : PyStr) : Option Int :=
  match s with
  | [] => none
  | c :: rest =>
    if c = '-' then (digitsToNat rest).map (fun n => -(n : Int))
    else if c = '+' then (digitsToNat rest).map (fun n => (n : Int))
    else (digitsToNat (c :: rest)).map (fun n => (n : Int))

/-- Python list indexing `xs[i]` with negative-index support:
defined exactly when `-len ≤ i < len`; `none` models the `IndexError` raise. -/
def pyGet (xs : List α) (i : Int) : Option α :=
  if i < 0 then
    if 0 ≤ i + xs.length then xs.get? (i + xs.length).toNat else none
  else xs.get? i.toNat

/-- Python's substring test `t in s`: the empty string is a substring of
everything, and a non-empty `t` occurs in `s` iff `findOcc` finds it. -/
def pyIn (t s : PyStr) : Bool :=
  if t = [] then true else (findOcc t s).isSome

/-- Left-to-right evaluation of a list comprehension whose body can raise:
the first raise wins, otherwise the list of results is produced. -/
def mapExcept (f : α → Except ε β) : List α → Except ε (List β)
  | [] => Except.ok []
  | x :: rest =>
    match f x with
    | Except.error e => Except.error e
    | Except.ok y =>
      match mapExcept f rest with
      | Except.error e => Except.error e
      | Except.ok ys => Except.ok (y :: ys)

/-- Left-to-right `map` over a partial function: the first failure wins. -/
def mapOption (f : α → Option β) : List α → Option (List β)
  | [] => some []
  | x :: rest =>
    match f x with
    | none => none
    | some y =>
      match mapOption f rest with
      | none => none
      | some ys => some (y :: ys)

/-- The bounds-string pipeline of the source, verbatim:
`s.split("][")[0].replace("[", "").split(",")`.
(`split` on a non-empty separator never returns an empty list, so the `[0]`
index never raises; `headD` reflects that.) -/
def boundsParts (s : PyStr) : List PyStr :=
  pySplit [','] (pyReplace ['['] [] ((pySplit [']', '['] s).headD []))

/-- First pass of the list comprehension in `find_xml` / `get_coordinates_xml`:
`bounds.attrib["bounds"].split("][")[0].replace("[", "").split(",")` for one
element.  A missing `bounds` attribute raises `KeyError`. -/
def elementBoundsStrs (e : Element) : Except PyErr (List PyStr) :=
  match attribLookup e ("bounds".toList) with
  | none => Except.error PyErr.keyError
  | some s => Except.ok (boundsParts s)

/-- Second pass: `tuple(map(int, coord))`.  Any component that `int` rejects
raises `ValueError`. -/
def tupleInts (parts : List PyStr) : Except PyErr (List Int) :=
  match mapOption pyInt parts with
  | none => Except.error PyErr.valueError
  | some xs => Except.ok xs

/-- Python `list[index]` where the index may be any kwargs value: a string
index raises `TypeError`, an out-of-range int raises `IndexError`. -/
def pyIndexVal (xs : List α) (iv : Val) : Except PyErr α :=
  match iv with
  | Val.vstr _ => Except.error PyErr.typeError
  | Val.vint i =>
    match pyGet xs i with
    | none => Except.error PyErr.indexError
    | some a => Except.ok a

/-- `ADB.find_xml(element, path_file, index)`.  The parameter `xp` is the
outcome of `html.parse(path_file).xpath(element)`: `.error` when that call
raises (the only code inside the `try`), `.ok es` with the matched elements
otherwise.  Everything after the `except` is outside the `try`, so bounds
lookup (`KeyError`), int conversion (`ValueError`) and the final indexing
(`IndexError` / `TypeError`) propagate to the caller. -/
def find_xml_v (xp : Except Unit (List Element)) (iv : Val) :
    Except PyErr (List (List Int) × Option Element) :=
  match xp with
  | Except.error _ => Except.ok ([], none)
  | Except.ok es =>
    match mapExcept elementBoundsStrs es with
    | Except.error e => Except.error e
    | Except.ok strss =>
      match mapExcept tupleInts strss with
      | Except.error e => Except.error e
      | Except.ok coords =>
        if es.isEmpty then Except.ok (coords, none)
        else
          match pyIndexVal es iv with
          | Except.error e => Except.error e
          | Except.ok el => Except.ok (coords, some el)

/-- `ADB.find_xml` with the usual integer index (default `0`). -/
def find_xml (xp : Except Unit (List Element)) (i : Int) :
    Except PyErr (List (List Int) × Option Element) :=
  find_xml_v xp (Val.vint i)

/-- `ADB.get_coordinates_xml(element)`.  `xp` is the outcome of parsing the
fresh dump and evaluating the XPath; there is no `try` in this method, so a
parse/XPath exception propagates (`.error .xpathError`), as do `KeyError` and
`ValueError` from the bounds pipeline. -/
def get_coordinates_xml (xp : Except Unit (List Element)) :
    Except PyErr (List (List Int)) :=
  match xp with
  | Except.error _ => Except.error PyErr.xpathError
  | Except.ok es =>
    match mapExcept elementBoundsStrs es with
    | Except.error e => Except.error e
    | Except.ok strss => mapExcept tupleInts strss

/-! ### Facts about the string primitives -/

/-- A found occurrence decomposes the string. -/
theorem findOcc_decomp (sep : PyStr) (s pre suf : PyStr)
    (h : findOcc sep s = some (pre, suf)) : s = pre ++ sep ++ suf := by
  induction s generalizing pre with
  | nil => simp [findOcc] at h
  | cons c rest ih =>
    rw [findOcc] at h
    by_cases hp : sep.isPrefixOf (c :: rest)
    · rw [if_pos hp] at h
      obtain ⟨t, ht⟩ := (List.isPrefixOf_iff_prefix.mp hp)
      cases h
      rw [← ht]
      simp [List.drop_left]
    · rw [if_neg hp] at h
      cases hf : findOcc sep rest with
      | none => rw [hf] at h; cases h
      | some pq =>
        obtain ⟨p, q⟩ := pq
        rw [hf] at h
        cases h
        have := ih p hf
        simp [this]

/-- If `sep` begins the string, the occurrence is at position `0`. -/
theorem findOcc_self (sep rest : PyStr) (hsep : sep ≠ []) :
    findOcc sep (sep ++ rest) = some ([], rest) := by
  cases sep with
  | nil => exact absurd rfl hsep
  | cons c t =>
    rw [List.cons_append, findOcc]
    have hp : (c :: t).isPrefixOf (c :: t ++ rest) = true := by
      exact List.isPrefixOf_iff_prefix.mpr ⟨rest, by simp⟩
    rw [if_pos (by simp [hp])]
    simp [List.drop_left']

/-- A single character that does not occur is never found. -/
theorem findOcc_single_none (c : Char) (s : PyStr) (h : c ∉ s) :
    findOcc [c] s = none := by
  induction s with
  | nil => rfl
  | cons x rest ih =>
    rw [findOcc]
    have hx : ¬ (c = x) := fun hcx => h (hcx ▸ List.mem_cons_self x rest)
    have hpre : ([c].isPrefixOf (x :: rest)) = false := by
      simp [List.isPrefixOf, hx]
    rw [hpre]
    simp only [Bool.false_eq_true, if_false]
    rw [ih (fun hm => h (List.mem_cons_of_mem x hm))]

/-- First occurrence of a single character sitting right after a clean prefix. -/
theorem findOcc_single_append (c : Char) (a b : PyStr) (ha : c ∉ a) :
    findOcc [c] (a ++ c :: b) = some (a, b) := by
  induction a with
  | nil => simpa using findOcc_self [c] b (by simp)
  | cons x a' ih =>
    rw [List.cons_append, findOcc]
    have hx : ¬ (c = x) := fun hcx => ha (hcx ▸ List.mem_cons_self x a')
    have hpre : ([c].isPrefixOf (x :: (a' ++ c :: b))) = false := by
      simp [List.isPrefixOf, hx]
    rw [hpre]
    simp only [Bool.false_eq_true, if_false]
    rw [ih (fun hm => ha (List.mem_cons_of_mem x hm))]

/-- First occurrence of `"]["` after a prefix containing no `']'`. -/
theorem findOcc_brk (a b : PyStr) (ha : ']' ∉ a) :
    findOcc [']', '['] (a ++ ']' :: '[' :: b) = some (a, b) := by
  induction a with
  | nil => simpa using findOcc_self [']', '['] b (by simp)
  | cons x a' ih =>
    rw [List.cons_append, findOcc]
    have hx : ¬ (']' = x) := fun hcx => ha (hcx ▸ List.mem_cons_self x a')
    have hpre : ([']', '['].isPrefixOf (x :: (a' ++ ']' :: '[' :: b))) = false := by
      simp [List.isPrefixOf, hx]
    rw [hpre]
    simp only [Bool.false_eq_true, if_false]
    rw [ih (fun hm => ha (List.mem_cons_of_mem x hm))]

/-- `split` finds nothing when the separator does not occur. -/
theorem pySplitF_of_none (sep s : PyStr) (fuel : Nat) (h : findOcc sep s = none) :
    pySplitF sep fuel s = [s] := by
  cases fuel with
  | zero => rfl
  | succ n => rw [pySplitF, h]

/-- Head of a `split` when the first occurrence is known. -/
theorem pySplit_headD (sep s pre suf : PyStr) (hsep : sep ≠ [])
    (h : findOcc sep s = some (pre, suf)) : (pySplit sep s).headD [] = pre := by
  rw [pySplit, if_neg hsep]
  cases s with
  | nil => simp [findOcc] at h
  | cons c rest =>
    rw [List.length_cons, pySplitF, h]
    rfl

/-- A `split` producing exactly two chunks. -/
theorem pySplit_pair (sep s pre suf : PyStr) (hsep : sep ≠ [])
    (h : findOcc sep s = some (pre, suf)) (h2 : findOcc sep suf = none) :
    pySplit sep s = [pre, suf] := by
  rw [pySplit, if_neg hsep]
  cases s with
  | nil => simp [findOcc] at h
  | cons c rest =>
    rw [List.length_cons, pySplitF, h]
    show pre :: pySplitF sep rest.length suf = [pre, suf]
    rw [pySplitF_of_none sep suf rest.length h2]

/-- `replace` is the identity when `old` does not occur. -/
theorem pyReplaceF_of_none (old new s : PyStr) (fuel : Nat)
    (h : findOcc old s = none) : pyReplaceF old new fuel s = s := by
  cases fuel with
  | zero => rfl
  | succ n => rw [pyReplaceF, h]

/-- Removing `"["` from a string that starts with `'['` and has no other `'['`. -/
theorem pyReplace_bracket (t : PyStr) (ht : '[' ∉ t) :
    pyReplace ['['] [] ('[' :: t) = t := by
  rw [pyReplace, if_neg (by simp)]
  rw [List.length_cons, pyReplaceF]
  have h0 : findOcc ['['] ('[' :: t) = some ([], t) := by
    simpa using findOcc_self ['['] t (by simp)
  rw [h0]
  show [] ++ [] ++ pyReplaceF ['['] [] t.length t = t
  rw [pyReplaceF_of_none ['['] [] t t.length (findOcc_single_none '[' t ht)]
  rfl

/-- A successful digit fold means every character was a digit. -/
theorem foldl_digits_isDigit (cs : PyStr) (acc n : Nat)
    (h : cs.foldlM (fun acc c => (charDigit c).map (fun d => 10 * acc + d)) acc = some n) :
    ∀ c ∈ cs, c.isDigit = true := by
  induction cs generalizing acc with
  | nil => simp
  | cons x rest ih =>
    rw [List.foldlM_cons] at h
    cases hx : charDigit x with
    | none =>
      rw [hx] at h
      simp at h
    | some d =>
      rw [hx] at h
      simp only [Option.map_some, Option.bind_eq_bind, Option.some_bind] at h
      intro c hc
      rcases List.mem_cons.mp hc with hcx | hcr
      · subst hcx
        by_contra hd
        rw [charDigit, if_neg (by simpa using hd)] at hx
        cases hx
      · exact ih (10 * acc + d) h c hcr

/-- A successful `digitsToNat` means every character was a digit. -/
theorem digitsToNat_isDigit (cs : PyStr) (n : Nat) (h : digitsToNat cs = some n) :
    ∀ c ∈ cs, c.isDigit = true := by
  rw [digitsToNat] at h
  by_cases hcs : cs = []
  · subst hcs; simp
  · rw [if_neg hcs] at h
    exact foldl_digits_isDigit cs 0 n h

/-- A string accepted by `int` consists of digits after an optional sign. -/
theorem pyInt_chars (s : PyStr) (a : Int) (h : pyInt s = some a) :
    ∀ c ∈ s, c.isDigit = true ∨ c = '-' ∨ c = '+' := by
  cases s with
  | nil => simp
  | cons x rest =>
    rw [pyInt] at h
    intro c hc
    by_cases hm : x = '-'
    · rw [if_pos hm] at h
      cases hd : digitsToNat rest with
      | none => rw [hd] at h; cases h
      | some n =>
        rcases List.mem_cons.mp hc with hcx | hcr
        · exact Or.inr (Or.inl (hcx.trans hm))
        · exact Or.inl (digitsToNat_isDigit rest n hd c hcr)
    · rw [if_neg hm] at h
      by_cases hp : x = '+'
      · rw [if_pos hp] at h
        cases hd : digitsToNat rest with
        | none => rw [hd] at h; cases h
        | some n =>
          rcases List.mem_cons.mp hc with hcx | hcr
          · exact Or.inr (Or.inr (hcx.trans hp))
          · exact Or.inl (digitsToNat_isDigit rest n hd c hcr)
      · rw [if_neg hp] at h
        cases hd : digitsToNat (x :: rest) with
        | none => rw [hd] at h; cases h
        | some n => exact Or.inl (digitsToNat_isDigit (x :: rest) n hd c hc)

/-- Characters of an accepted `int` string are never brackets or commas. -/
theorem pyInt_no_bracket (s : PyStr) (a : Int) (h : pyInt s = some a) :
    '[' ∉ s ∧ ']' ∉ s ∧ ',' ∉ s := by
  refine ⟨fun hm => ?_, fun hm => ?_, fun hm => ?_⟩ <;>
    rcases pyInt_chars s a h _ hm with hd | hs | hs <;> simp_all

/-! ### The bounds pipeline on well-formed `"[a,b][c,d]"` strings -/

/-- The bounds attribute string `"[" ++ sa ++ "," ++ sb ++ "][" ++ sc ++ "," ++ sd ++ "]"`. -/
def boundsForm (sa sb sc sd : PyStr) : PyStr :=
  '[' :: (sa ++ ',' :: (sb ++ ']' :: '[' :: (sc ++ ',' :: (sd ++ [']']))))

/-- On a string shaped `"[sa,sb][...tail"` whose first two components contain
no bracket or comma, the source's split/replace/split pipeline returns exactly
the components of the first pair. -/
theorem boundsParts_form (sa sb tail : PyStr)
    (h1 : '[' ∉ sa) (h2 : ']' ∉ sa) (h3 : ',' ∉ sa)
    (h4 : '[' ∉ sb) (h5 : ']' ∉ sb) (h6 : ',' ∉ sb) :
    boundsParts ('[' :: (sa ++ ',' :: (sb ++ ']' :: '[' :: tail))) = [sa, sb] := by
  have hshape : '[' :: (sa ++ ',' :: (sb ++ ']' :: '[' :: tail)) =
      ('[' :: (sa ++ ',' :: sb)) ++ ']' :: '[' :: tail := by simp
  have hnotin : ']' ∉ '[' :: (sa ++ ',' :: sb) := by
    intro hm
    rcases List.mem_cons.mp hm with hx | hx
    · exact absurd hx.symm (by decide)
    · rcases List.mem_append.mp hx with hy | hy
      · exact h2 hy
      · rcases List.mem_cons.mp hy with hz | hz
        · exact absurd hz.symm (by decide)
        · exact h5 hz
  have hfind := findOcc_brk ('[' :: (sa ++ ',' :: sb)) tail hnotin
  rw [boundsParts, hshape,
    pySplit_headD [']', '['] _ _ _ (by simp) hfind]
  have hbr : '[' ∉ sa ++ ',' :: sb := by
    intro hm
    rcases List.mem_append.mp hm with hy | hy
    · exact h1 hy
    · rcases List.mem_cons.mp hy with hz | hz
      · exact absurd hz.symm (by decide)
      · exact h4 hz
  rw [pyReplace_bracket _ hbr]
  exact pySplit_pair [','] _ sa sb (by simp)
    (findOcc_single_append ',' sa sb h3) (findOcc_single_none ',' sb h6)

/-- One matched element whose bounds attribute has the canonical
`"[a,b][c,d]"` form: the four integers and their decimal renderings. -/
structure BoundsQuad where
  a : Int
  b : Int
  c : Int
  d : Int
  sa : PyStr
  sb : PyStr
  sc : PyStr
  sd : PyStr

/-- Each rendering is a string `int` accepts for the corresponding value. -/
def quadOk (q : BoundsQuad) : Prop :=
  pyInt q.sa = some q.a ∧ pyInt q.sb = some q.b ∧
    pyInt q.sc = some q.c ∧ pyInt q.sd = some q.d

instance (q : BoundsQuad) : Decidable (quadOk q) := by
  unfold quadOk; infer_instance

/-- The hierarchy element carrying that bounds attribute. -/
def quadElement (q : BoundsQuad) : Element :=
  ⟨[("bounds".toList, boundsForm q.sa q.sb q.sc q.sd)]⟩

/-- First comprehension pass on such an element: the split pipeline yields the
two components of the first pair. -/
theorem quad_bounds_strs (q : BoundsQuad) (h : quadOk q) :
    elementBoundsStrs (quadElement q) = Except.ok [q.sa, q.sb] := by
  obtain ⟨ha, hb, _, _⟩ := h
  obtain ⟨ha1, ha2, ha3⟩ := pyInt_no_bracket _ _ ha
  obtain ⟨hb1, hb2, hb3⟩ := pyInt_no_bracket _ _ hb
  have hlk : attribLookup (quadElement q) ("bounds".toList)
      = some (boundsForm q.sa q.sb q.sc q.sd) := rfl
  simp only [elementBoundsStrs, hlk, boundsForm]
  rw [boundsParts_form q.sa q.sb _ ha1 ha2 ha3 hb1 hb2 hb3]

/-- Second pass on such an element: `int` turns both components into the
expected integers. -/
theorem quad_ints (q : BoundsQuad) (h : quadOk q) :
    tupleInts [q.sa, q.sb] = Except.ok [q.a, q.b] := by
  obtain ⟨ha, hb, _, _⟩ := h
  simp [tupleInts, mapOption, ha, hb]

/-- Mapping a raising comprehension over a `map`ped list succeeds pointwise. -/
theorem mapExcept_map_ok {α β γ : Type} (l : List α) (g : α → β)
    (f : β → Except PyErr γ) (k : α → γ)
    (h : ∀ x ∈ l, f (g x) = Except.ok (k x)) :
    mapExcept f (l.map g) = Except.ok (l.map k) := by
  induction l with
  | nil => rfl
  | cons x rest ih =>
    simp only [List.map_cons, mapExcept, h x (List.mem_cons_self x rest),
      ih (fun y hy => h y (List.mem_cons_of_mem x hy))]

/-! ### Claims C1 and C2 -/

/-- C1 (amended, positive part): for every list of matched elements whose
bounds attributes have the form `"[a,b][c,d]"` with integer renderings
`a,b,c,d`, both XML coordinate lookups extract the first pair `(a, b)` as an
integer tuple for each matched element; `find_xml` additionally returns the
first matched element at the default index `0`. -/
theorem c1_first_pair_extraction (qs : List BoundsQuad) (h : ∀ q ∈ qs, quadOk q) :
    get_coordinates_xml (Except.ok (qs.map quadElement))
        = Except.ok (qs.map (fun q => [q.a, q.b]))
    ∧ find_xml (Except.ok (qs.map quadElement)) 0
        = Except.ok (qs.map (fun q => [q.a, q.b]), (qs.map quadElement).head?) := by
  have hstrs := mapExcept_map_ok qs quadElement elementBoundsStrs
    (fun q => [q.sa, q.sb]) (fun q hq => quad_bounds_strs q (h q hq))
  have hints := mapExcept_map_ok qs (fun q => [q.sa, q.sb]) tupleInts
    (fun q => [q.a, q.b]) (fun q hq => quad_ints q (h q hq))
  constructor
  · simp only [get_coordinates_xml, hstrs, hints]
  · cases qs with
    | nil => rfl
    | cons q rest =>
      simp only [List.map_cons] at hstrs hints
      simp only [find_xml, find_xml_v, List.map_cons, hstrs, hints,
        List.isEmpty_cons, pyIndexVal, pyGet, List.head?]
      norm_num

/-- C1 witness: a concrete element with bounds `"[12,34][56,78]"` from which
both lookups extract `(12, 34)`. -/
theorem c1_first_pair_extraction_witness :
    (∀ q ∈ [BoundsQuad.mk 12 34 56 78
        ("12".toList) ("34".toList) ("56".toList) ("78".toList)], quadOk q)
    ∧ get_coordinates_xml (Except.ok
        ([BoundsQuad.mk 12 34 56 78
          ("12".toList) ("34".toList) ("56".toList) ("78".toList)].map quadElement))
        = Except.ok ([BoundsQuad.mk 12 34 56 78
          ("12".toList) ("34".toList) ("56".toList) ("78".toList)].map
            (fun q => [q.a, q.b])) :=
  ⟨by decide, (c1_first_pair_extraction _ (by decide)).1⟩

/-- C1 counterexample: an element whose bounds string `"oops"` is malformed.
Both lookups raise `ValueError` (the `int` conversions are outside the `try`
in `find_xml`, and `get_coordinates_xml` has no `try` at all); neither yields
an empty result, refuting the claim's error-handling half. -/
theorem c1_malformed_bounds_counterexample :
    find_xml (Except.ok [Element.mk [("bounds".toList, "oops".toList)]]) 0
        = Except.error PyErr.valueError
    ∧ get_coordinates_xml (Except.ok [Element.mk [("bounds".toList, "oops".toList)]])
        = Except.error PyErr.valueError := by
  constructor <;> rfl

/-- C2 (amended): a parse/XPath exception is swallowed by `find_xml` (whose
`try` covers exactly the parse-and-xpath call) and converted to the empty
result `([], None)`, for any requested index; the same exception inside
`get_coordinates_xml` is not caught and propagates to the caller. -/
theorem c2_exception_scoping :
    (∀ iv : Val, find_xml_v (Except.error ()) iv = Except.ok ([], none))
    ∧ get_coordinates_xml (Except.error ()) = Except.error PyErr.xpathError :=
  ⟨fun _ => rfl, rfl⟩

/-- C2 counterexample: in `get_coordinates_xml` a parse/XPath exception
propagates instead of becoming an empty result, refuting the claim for that
lookup. -/
theorem c2_swallow_counterexample :
    get_coordinates_xml (Except.error ()) = Except.error PyErr.xpathError
    ∧ get_coordinates_xml (Except.error ()) ≠ Except.ok [] :=
  ⟨rfl, fun h => Except.noConfusion h⟩

/-! ### Visual locator: `ADB.get_coordinates_image` (claims C3, C9) -/

/-- First index in a row whose value reaches the threshold. -/
def rowFirstIdx [LinearOrder α] (t : α) : List α → Option Nat
  | [] => none
  | v :: rest => if t ≤ v then some 0 else (rowFirstIdx t rest).map Nat.succ

/-- Row-major first position `(y, x)` whose value reaches the threshold:
`np.where(result >= threshold)` returns hits in row-major order, and the code
reads index `[0]` of both coordinate arrays. -/
def firstHit [LinearOrder α] (t : α) : List (List α) → Option (Nat × Nat)
  | [] => none
  | row :: rest =>
    match rowFirstIdx t row with
    | some x => some (0, x)
    | none => (firstHit t rest).map (fun p => (p.1 + 1, p.2))

/-- `ADB.get_coordinates_image`, given the score matrix `result` produced by
`cv2.matchTemplate(..., method=TM_CCOEFF_NORMED)` and the target image's width
`tw` (`shape[1]`) and height `th` (`shape[0]`): if any location qualifies, the
first match's coordinates offset by `tw // 2` and `th // 2`; `none` models the
`return False` branch. -/
def get_coordinates_image [LinearOrder α] (result : List (List α)) (tw th : Nat)
    (t : α) : Option (Nat × Nat) :=
  match firstHit t result with
  | none => none
  | some (y, x) => some (x + tw / 2, y + th / 2)

/-- Entry of a score matrix, when present. -/
def entry? (m : List (List α)) (y x : Nat) : Option α :=
  (m.get? y).bind (fun row => row.get? x)

/-- Position `(y, x)` of the matrix holds a value reaching the threshold. -/
def hitAt [LinearOrder α] (m : List (List α)) (t : α) (y x : Nat) : Prop :=
  ∃ v, entry? m y x = some v ∧ t ≤ v

/-- Row-major (reading) order on matrix positions. -/
def rmLT (p q : Nat × Nat) : Prop :=
  p.1 < q.1 ∨ (p.1 = q.1 ∧ p.2 < q.2)

theorem rowFirstIdx_eq_none [LinearOrder α] (t : α) (row : List α)
    (h : ∀ x v, row.get? x = some v → v < t) : rowFirstIdx t row = none := by
  induction row with
  | nil => rfl
  | cons w rest ih =>
    have hw : w < t := h 0 w rfl
    rw [rowFirstIdx, if_neg (not_le.mpr hw), ih (fun x v hx => h (x + 1) v hx)]
    rfl

theorem rowFirstIdx_eq_some [LinearOrder α] (t : α) (row : List α) (x : Nat) (v : α)
    (hv : row.get? x = some v) (ht : t ≤ v)
    (hbefore : ∀ x' v', x' < x → row.get? x' = some v' → v' < t) :
    rowFirstIdx t row = some x := by
  induction row generalizing x with
  | nil => cases hv
  | cons w rest ih =>
    cases x with
    | zero =>
      have : w = v := by simpa using hv
      rw [rowFirstIdx, if_pos (this ▸ ht)]
    | succ x' =>
      have hw : w < t := hbefore 0 w (Nat.succ_pos x') rfl
      rw [rowFirstIdx, if_neg (not_le.mpr hw),
        ih x' hv (fun x'' v' hlt hx => hbefore (x'' + 1) v' (Nat.succ_lt_succ hlt) hx)]
      rfl

theorem firstHit_eq_none [LinearOrder α] (t : α) (m : List (List α))
    (h : ∀ y x, ¬ hitAt m t y x) : firstHit t m = none := by
  induction m with
  | nil => rfl
  | cons row rest ih =>
    have hrow : rowFirstIdx t row = none := by
      refine rowFirstIdx_eq_none t row (fun x v hx => ?_)
      by_contra hge
      exact h 0 x ⟨v, hx, not_lt.mp hge⟩
    rw [firstHit, hrow, ih (fun y x hhit => h (y + 1) x hhit)]
    rfl

theorem firstHit_eq_some [LinearOrder α] (t : α) (m : List (List α)) (y x : Nat)
    (hhit : hitAt m t y x)
    (hfirst : ∀ y' x', rmLT (y', x') (y, x) → ¬ hitAt m t y' x') :
    firstHit t m = some (y, x) := by
  induction m generalizing y with
  | nil => obtain ⟨v, hv, _⟩ := hhit; cases hv
  | cons row rest ih =>
    cases y with
    | zero =>
      obtain ⟨v, hv, htv⟩ := hhit
      have hrow : rowFirstIdx t row = some x := by
        refine rowFirstIdx_eq_some t row x v hv htv (fun x' v' hlt hx => ?_)
        by_contra hge
        exact hfirst 0 x' (Or.inr ⟨rfl, hlt⟩) ⟨v', hx, not_lt.mp hge⟩
      rw [firstHit, hrow]
    | succ y' =>
      have hrow : rowFirstIdx t row = none := by
        refine rowFirstIdx_eq_none t row (fun x' v hx => ?_)
        by_contra hge
        exact hfirst 0 x' (Or.inl (Nat.succ_pos y')) ⟨v, hx, not_lt.mp hge⟩
      rw [firstHit, hrow]
      have hrec := ih y' hhit (fun y'' x'' hlt hhit' => by
        refine hfirst (y'' + 1) x'' ?_ hhit'
        rcases hlt with hy | ⟨hy, hx⟩
        · exact Or.inl (Nat.succ_lt_succ hy)
        · exact Or.inr ⟨by omega, hx⟩)
      rw [hrec]
      rfl

/-- An image as a matrix of rational pixel intensities (the integer pixel
values that `cv2.imread` supplies embed into ℚ; the NCC means below are then
exact). -/
abbrev Img := List (List ℚ)

/-- Pixel access with the matrix's out-of-range reads defaulting to `0`
(never exercised: patches are always taken in range). -/
def matGet (m : Img) (y x : Nat) : ℚ :=
  (m.getD y []).getD x 0

/-- The `w × h` window of `img` whose top-left corner is `(x, y)`: the region
`cv2.matchTemplate` correlates against the template for result position
`(x, y)`. -/
def patch (img : Img) (x y w h : Nat) : Img :=
  (List.range h).map (fun i => (List.range w).map (fun j => matGet img (y + i) (x + j)))

/-- Sum of all entries of a matrix. -/
def msum (m : Img) : ℚ :=
  (m.map (fun r => r.sum)).sum

/-- Mean over the template-sized window. -/
def tmean (m : Img) : ℚ :=
  msum m / ((m.length : ℚ) * (((m.headD []).length : ℚ)))

/-- Numerator of `TM_CCOEFF_NORMED`: the sum over the template window of the
products of mean-subtracted template and window entries. -/
def nccNum (T P : Img) : ℚ :=
  ((List.range T.length).map (fun i =>
    ((List.range (T.headD []).length).map (fun j =>
      (matGet T i j - tmean T) * (matGet P i j - tmean P))).sum)).sum

/-- Sum of squared mean-subtracted entries (the template's or window's part of
the normalisation). -/
def varSum (T : Img) : ℚ :=
  nccNum T T

/-- The `TM_CCOEFF_NORMED` score: mean-subtracted cross-correlation divided by
the square root of the product of both sides' squared sums. -/
noncomputable def nccScore (T P : Img) : ℝ :=
  ((nccNum T P : ℚ) : ℝ) / Real.sqrt (((varSum T : ℚ) : ℝ) * ((varSum P : ℚ) : ℝ))

/-- `cv2.matchTemplate(template_image, target_image, TM_CCOEFF_NORMED)`:
the `(H - h + 1) × (W - w + 1)` matrix of window scores. -/
noncomputable def matchTemplate (img T : Img) : List (List ℝ) :=
  (List.range (img.length - T.length + 1)).map (fun y =>
    (List.range ((img.headD []).length - (T.headD []).length + 1)).map (fun x =>
      nccScore T (patch img x y (T.headD []).length T.length)))

/-- `ADB.get_coordinates_image` end to end on the NCC score matrix. -/
noncomputable def get_coordinates_image_ncc (img T : Img) (t : ℝ) :
    Option (Nat × Nat) :=
  get_coordinates_image (matchTemplate img T) (T.headD []).length T.length t

/-- Reading an in-range entry of a doubly-`range`-indexed matrix. -/
theorem entry_range_map {β : Type} (R1 R2 : Nat) (g : Nat → Nat → β) (y x : Nat)
    (hy : y < R1) (hx : x < R2) :
    entry? ((List.range R1).map (fun i => (List.range R2).map (fun j => g i j))) y x
      = some (g y x) := by
  rw [entry?, List.get?_map, List.get?_range hy]
  simp [List.get?_map, List.get?_range hx]
  exact ⟨x, by simp [List.getElem?_range hx]⟩

/-- The score of the window that exactly equals the (non-constant) template
is exactly `1`. -/
theorem nccScore_self (T : Img) (h : 0 < varSum T) : nccScore T T = 1 := by
  rw [nccScore]
  have h0 : (0 : ℝ) ≤ ((varSum T : ℚ) : ℝ) := by exact_mod_cast le_of_lt h
  rw [show ((nccNum T T : ℚ) : ℝ) = ((varSum T : ℚ) : ℝ) from rfl,
    Real.sqrt_mul_self h0]
  have hne : ((varSum T : ℚ) : ℝ) ≠ 0 := ne_of_gt (by exact_mod_cast h)
  exact div_self hne

/-- C3: `get_coordinates_image` returns the coordinates of the first (row-major)
pixel location of the score matrix meeting the threshold, offset by half the
reference image's width and height; with no qualifying location it returns the
no-match sentinel; and for a screenshot containing the reference image as its
window at `(px, py)` — the first location reaching a threshold at most the
self-similarity score — the full NCC pipeline returns
`(px + width / 2, py + height / 2)`. -/
theorem c3_template_matching :
    (∀ (α : Type) [LinearOrder α] (result : List (List α)) (tw th : Nat)
        (t : α) (y x : Nat),
        hitAt result t y x →
        (∀ py px, rmLT (py, px) (y, x) → ¬ hitAt result t py px) →
        get_coordinates_image result tw th t = some (x + tw / 2, y + th / 2))
    ∧ (∀ (α : Type) [LinearOrder α] (result : List (List α)) (tw th : Nat) (t : α),
        (∀ y x, ¬ hitAt result t y x) →
        get_coordinates_image result tw th t = none)
    ∧ (∀ (img T : Img) (t : ℝ) (px py : Nat),
        patch img px py (T.headD []).length T.length = T →
        0 < varSum T →
        t ≤ 1 →
        py < img.length - T.length + 1 →
        px < (img.headD []).length - (T.headD []).length + 1 →
        (∀ y x, rmLT (y, x) (py, px) → ¬ hitAt (matchTemplate img T) t y x) →
        get_coordinates_image_ncc img T t
          = some (px + (T.headD []).length / 2, py + T.length / 2)) := by
  refine ⟨?_, ?_, ?_⟩
  · intro α _ result tw th t y x hhit hfirst
    rw [get_coordinates_image, firstHit_eq_some t result y x hhit hfirst]
  · intro α _ result tw th t hmiss
    rw [get_coordinates_image, firstHit_eq_none t result hmiss]
  · intro img T t px py hpatch hvar ht hy hx hfirst
    have hentry : entry? (matchTemplate img T) py px
        = some (nccScore T (patch img px py (T.headD []).length T.length)) := by
      rw [matchTemplate]
      exact entry_range_map _ _ _ py px hy hx
    rw [hpatch, nccScore_self T hvar] at hentry
    have hhit : hitAt (matchTemplate img T) t py px := ⟨1, hentry, ht⟩
    rw [get_coordinates_image_ncc, get_coordinates_image,
      firstHit_eq_some t (matchTemplate img T) py px hhit hfirst]

/-- C3 witness: a score row `[0, 5]` with threshold `3` locates `(1, 0)` and
offsets it by the half-dimensions; an all-zero score row with threshold `3`
reports no match; pasting the non-constant image `[[0], [2]]` over itself at
`(0, 0)` with threshold `1` yields its centre `(0 + 1/2, 0 + 2/2)`. -/
theorem c3_template_matching_witness :
    (0 : ℚ) < varSum [[0], [2]]
    ∧ get_coordinates_image ([[0, 5]] : List (List ℚ)) 4 6 3 = some (3, 3)
    ∧ get_coordinates_image ([[0]] : List (List ℚ)) 4 6 3 = none
    ∧ get_coordinates_image_ncc [[0], [2]] [[0], [2]] 1 = some (0, 1) := by
  have hvar : (0 : ℚ) < varSum [[0], [2]] := by
    norm_num [varSum, nccNum, tmean, msum, matGet, List.range_succ]
  refine ⟨hvar, ?_, ?_, ?_⟩
  · have hhit : hitAt ([[0, 5]] : List (List ℚ)) 3 0 1 :=
      ⟨5, rfl, by norm_num⟩
    have hfirst : ∀ py px, rmLT (py, px) (0, 1) →
        ¬ hitAt ([[0, 5]] : List (List ℚ)) 3 py px := by
      intro py px h hq
      rcases h with h | ⟨h1, h2⟩
      · omega
      · subst h1
        have hpx : px = 0 := by omega
        subst hpx
        obtain ⟨v, hv, hle⟩ := hq
        have hv0 : v = 0 := by simpa [entry?] using hv.symm
        rw [hv0] at hle
        norm_num at hle
    exact c3_template_matching.1 ℚ [[0, 5]] 4 6 3 0 1 hhit hfirst
  · have hmiss : ∀ y x, ¬ hitAt ([[0]] : List (List ℚ)) 3 y x := by
      intro y x hq
      obtain ⟨v, hv, hle⟩ := hq
      cases y with
      | zero =>
        cases x with
        | zero =>
          have hv0 : v = 0 := by simpa [entry?] using hv.symm
          rw [hv0] at hle
          norm_num at hle
        | succ n => simp [entry?] at hv
      | succ m => simp [entry?] at hv
    exact c3_template_matching.2.1 ℚ [[0]] 4 6 3 hmiss
  · have hfirst : ∀ y x, rmLT (y, x) (0, 0) →
        ¬ hitAt (matchTemplate [[0], [2]] [[0], [2]]) 1 y x := by
      intro y x h _
      rcases h with h | ⟨h1, h2⟩ <;> omega
    have := c3_template_matching.2.2 [[0], [2]] [[0], [2]] 1 0 0
      (by rfl) hvar (le_refl 1) (by norm_num) (by norm_num) hfirst
    simpa using this

/-- `ADB.click_coordinates_image(image_path)`: calls `get_coordinates_image`
with its default threshold `1`; a returned coordinate pair (a non-empty tuple,
hence truthy) is tapped and the function falls off the end — Python returns
`None` — while a `False` result is returned unchanged.  The first component is
the Python return value (`none` = `None`, `some b` = the bool `b`); the second
lists the taps issued. -/
def click_coordinates_image (result : List (List ℚ)) (tw th : Nat) :
    Option Bool × List (Nat × Nat) :=
  match get_coordinates_image result tw th 1 with
  | some (x, y) => (none, [(x, y)])
  | none => (some false, [])

/-! ### Filesystem and polling loops (claims C4, C7) -/

/-- The single dump file `resources/window_dump_0.xml`; every dump overwrites
it. -/
structure FS where
  window_dump : PyStr
  deriving DecidableEq, Repr

/-- `ADB.dump_xml()`: write the freshly dumped hierarchy content to the fixed
dump file (the returned path always names this same file). -/
def writeDump (content : PyStr) (_fs : FS) : FS :=
  ⟨content⟩

/-- `open(xml_file_path, ...).read()` on the dump file. -/
def readDump (fs : FS) : PyStr :=
  fs.window_dump

/-- Loop worker for `ADB.check_text_xml`.  `dumps k` is the hierarchy content
the device yields at the `k`-th dump; each iteration dumps (write), re-reads
the file, tests `text in xml_content`, and either returns `True` or sleeps
half a second and retries; after the last failed attempt the loop returns
`False`.  The result records the Python return value, the number of dump
cycles, the number of sleeps, and the final file state. -/
def check_text_xml_go (dumps : Nat → PyStr) (text : PyStr) :
    FS → Nat → Nat → Nat → Bool × Nat × Nat × FS
  | fs, k, sl, 0 => (false, k, sl, fs)
  | fs, k, sl, n + 1 =>
    if pyIn text (readDump (writeDump (dumps k) fs)) then
      (true, k + 1, sl, writeDump (dumps k) fs)
    else
      check_text_xml_go dumps text (writeDump (dumps k) fs) (k + 1) (sl + 1) n

/-- `ADB.check_text_xml(text, retries)` (the source's default is
`retries = 30`). -/
def check_text_xml (dumps : Nat → PyStr) (text : PyStr) (retries : Nat)
    (fs : FS) : Bool × Nat × Nat × FS :=
  check_text_xml_go dumps text fs 0 0 retries

/-- Outcome of `ADB.click_coordinates_xml`: on success the tapped coordinates
with the dump/sleep counts, on exhaustion just the counts. -/
inductive ClickResult where
  | success (x y : Int) (dumps sleeps : Nat)
  | failure (dumps sleeps : Nat)
  deriving DecidableEq, Repr

/-- Loop worker for `ADB.click_coordinates_xml(element, index)`: each attempt
evaluates `part = get_coordinates_xml(element)` on a fresh dump (`xpSeq k`;
exceptions propagate), and when `part` is truthy taps
`(part[index][0], part[index][1])` and returns `True`; otherwise it sleeps and
retries, returning `False` after the last attempt. -/
def click_xml_go (xpSeq : Nat → Except Unit (List Element)) (index : Int) :
    Nat → Nat → Except PyErr ClickResult
  | k, 0 => Except.ok (ClickResult.failure k k)
  | k, n + 1 =>
    match get_coordinates_xml (xpSeq k) with
    | Except.error e => Except.error e
    | Except.ok part =>
      if part.isEmpty then click_xml_go xpSeq index (k + 1) n
      else
        match pyGet part index with
        | none => Except.error PyErr.indexError
        | some coords =>
          match pyGet coords 0 with
          | none => Except.error PyErr.indexError
          | some cx =>
            match pyGet coords 1 with
            | none => Except.error PyErr.indexError
            | some cy => Except.ok (ClickResult.success cx cy (k + 1) k)

/-- `ADB.click_coordinates_xml` with its literal retry bound `15`. -/
def click_coordinates_xml (xpSeq : Nat → Except Unit (List Element))
    (index : Int) : Except PyErr ClickResult :=
  click_xml_go xpSeq index 0 15

/-! ### Loop behaviour lemmas -/

theorem check_text_go_fail (dumps : Nat → PyStr) (text : PyStr) (n : Nat) :
    ∀ (k sl : Nat) (fs : FS),
      (∀ i, i < n → pyIn text (dumps (k + i)) = false) →
      ∃ fs', check_text_xml_go dumps text fs k sl n = (false, k + n, sl + n, fs') := by
  induction n with
  | zero => intro k sl fs _; exact ⟨fs, rfl⟩
  | succ n ih =>
    intro k sl fs h
    have h0 : pyIn text (dumps k) = false := by simpa using h 0 (Nat.succ_pos n)
    rw [check_text_xml_go]
    have hread : readDump (writeDump (dumps k) fs) = dumps k := rfl
    rw [hread, h0]
    simp only [Bool.false_eq_true, if_false]
    obtain ⟨fs', hfs'⟩ := ih (k + 1) (sl + 1) (writeDump (dumps k) fs)
      (fun i hi => by
        have := h (i + 1) (Nat.succ_lt_succ hi)
        simpa [Nat.add_assoc, Nat.add_comm 1 i] using this)
    refine ⟨fs', ?_⟩
    have e1 : k + 1 + n = k + (n + 1) := by omega
    have e2 : sl + 1 + n = sl + (n + 1) := by omega
    rw [hfs', e1, e2]

theorem check_text_go_succ (dumps : Nat → PyStr) (text : PyStr) (m : Nat) :
    ∀ (n k sl : Nat) (fs : FS), m < n →
      (∀ i, i < m → pyIn text (dumps (k + i)) = false) →
      pyIn text (dumps (k + m)) = true →
      ∃ fs', check_text_xml_go dumps text fs k sl n = (true, k + m + 1, sl + m, fs') := by
  induction m with
  | zero =>
    intro n k sl fs hm _ hat
    obtain ⟨n', rfl⟩ := Nat.exists_eq_add_of_lt hm
    rw [check_text_xml_go]
    have hread : readDump (writeDump (dumps k) fs) = dumps k := rfl
    rw [hread, show dumps k = dumps (k + 0) from rfl, hat]
    exact ⟨writeDump (dumps k) fs, by simp⟩
  | succ m ih =>
    intro n k sl fs hm hbefore hat
    obtain ⟨n', rfl⟩ := Nat.exists_eq_add_of_lt hm
    rw [check_text_xml_go]
    have h0 : pyIn text (dumps k) = false := by simpa using hbefore 0 (Nat.succ_pos m)
    have hread : readDump (writeDump (dumps k) fs) = dumps k := rfl
    rw [hread, h0]
    simp only [Bool.false_eq_true, if_false]
    obtain ⟨fs', hfs'⟩ := ih (m + 1 + n') (k + 1) (sl + 1) (writeDump (dumps k) fs)
      (by omega)
      (fun i hi => by
        have := hbefore (i + 1) (Nat.succ_lt_succ hi)
        simpa [Nat.add_assoc, Nat.add_comm 1 i] using this)
      (by
        have : k + 1 + m = k + (m + 1) := by omega
        rw [this]
        exact hat)
    refine ⟨fs', ?_⟩
    have e1 : k + 1 + m + 1 = k + (m + 1) + 1 := by omega
    have e2 : sl + 1 + m = sl + (m + 1) := by omega
    rw [hfs', e1, e2]

theorem click_go_fail (xpSeq : Nat → Except Unit (List Element)) (index : Int)
    (n : Nat) :
    ∀ k : Nat, (∀ i, i < n → get_coordinates_xml (xpSeq (k + i)) = Except.ok []) →
      click_xml_go xpSeq index k n = Except.ok (ClickResult.failure (k + n) (k + n)) := by
  induction n with
  | zero => intro k _; rfl
  | succ n ih =>
    intro k h
    have h0 : get_coordinates_xml (xpSeq k) = Except.ok [] := by
      simpa using h 0 (Nat.succ_pos n)
    have hrec := ih (k + 1) (fun i hi => by
      have := h (i + 1) (Nat.succ_lt_succ hi)
      simpa [Nat.add_assoc, Nat.add_comm 1 i] using this)
    rw [click_xml_go, h0]
    show click_xml_go xpSeq index (k + 1) n = _
    rw [hrec]
    have e : k + 1 + n = k + (n + 1) := by omega
    rw [e]

theorem click_go_succ (xpSeq : Nat → Except Unit (List Element)) (m : Nat) :
    ∀ (n k : Nat) (x y : Int) (rest : List Int) (more : List (List Int)),
      m < n →
      (∀ i, i < m → get_coordinates_xml (xpSeq (k + i)) = Except.ok []) →
      get_coordinates_xml (xpSeq (k + m)) = Except.ok ((x :: y :: rest) :: more) →
      click_xml_go xpSeq 0 k n
        = Except.ok (ClickResult.success x y (k + m + 1) (k + m)) := by
  induction m with
  | zero =>
    intro n k x y rest more hm _ hat
    obtain ⟨n', rfl⟩ := Nat.exists_eq_add_of_lt hm
    rw [show k + 0 = k from rfl] at hat
    rw [show 0 + n' + 1 = n' + 1 from by omega, click_xml_go, hat]
    show Except.ok (ClickResult.success x y (k + 1) k) = _
    rw [show k + 0 = k from rfl]
  | succ m ih =>
    intro n k x y rest more hm hbefore hat
    obtain ⟨n', rfl⟩ := Nat.exists_eq_add_of_lt hm
    have h0 : get_coordinates_xml (xpSeq k) = Except.ok [] := by
      simpa using hbefore 0 (Nat.succ_pos m)
    have hrec := ih (m + 1 + n') (k + 1) x y rest more (by omega)
      (fun i hi => by
        have := hbefore (i + 1) (Nat.succ_lt_succ hi)
        simpa [Nat.add_assoc, Nat.add_comm 1 i] using this)
      (by
        have e : k + 1 + m = k + (m + 1) := by omega
        rw [e]
        exact hat)
    rw [show m + 1 + n' + 1 = (m + 1 + n') + 1 from rfl, click_xml_go, h0]
    show click_xml_go xpSeq 0 (k + 1) (m + 1 + n') = _
    rw [hrec]
    have e1 : k + 1 + m + 1 = k + (m + 1) + 1 := by omega
    have e2 : k + 1 + m = k + (m + 1) := by omega
    rw [e1, e2]

/-! ### `in` agrees with the substring relation -/

theorem findOcc_isSome_append (t u v : PyStr) (hne : t ≠ []) :
    (findOcc t (u ++ t ++ v)).isSome = true := by
  induction u with
  | nil =>
    rw [List.nil_append, findOcc_self t v hne]
    rfl
  | cons c u' ih =>
    rw [List.cons_append, List.cons_append, findOcc]
    by_cases hp : t.isPrefixOf (c :: (u' ++ t ++ v))
    · rw [if_pos hp]
      rfl
    · rw [if_neg hp]
      cases hf : findOcc t (u' ++ t ++ v) with
      | none =>
        rw [hf] at ih
        simp at ih
      | some pq =>
        obtain ⟨p, q⟩ := pq
        rfl

/-- Python's `text in content` holds exactly when `text` is a contiguous
substring of `content`. -/
theorem pyIn_iff_substring (t s : PyStr) : pyIn t s = true ↔ t <:+: s := by
  constructor
  · intro h
    rw [pyIn] at h
    by_cases hne : t = []
    · subst hne
      exact List.nil_infix
    · rw [if_neg hne] at h
      obtain ⟨⟨pre, suf⟩, hps⟩ := Option.isSome_iff_exists.mp h
      exact ⟨pre, suf, (findOcc_decomp t s pre suf hps).symm⟩
  · intro h
    rw [pyIn]
    by_cases hne : t = []
    · rw [if_pos hne]
    · rw [if_neg hne]
      obtain ⟨u, v, rfl⟩ := h
      exact findOcc_isSome_append t u v hne

/-! ### Claims C4, C7 and C9 -/

/-- C4: polling behaviour of `check_text_xml` (its `retries` budget, default
30) and `click_coordinates_xml` (its fixed budget `15`).  A target first
present on the `N`-th attempt (within budget) yields `True` after exactly `N`
dump cycles with `N - 1` half-second sleeps between attempts; a target never
present yields `False` after exactly the budgeted number of dump cycles
(sleeping after each failed attempt). -/
theorem c4_polling_budgets :
    (∀ (dumps : Nat → PyStr) (text : PyStr) (retries N : Nat) (fs : FS),
        0 < N → N ≤ retries →
        (∀ i, i < N - 1 → pyIn text (dumps i) = false) →
        pyIn text (dumps (N - 1)) = true →
        ∃ fs', check_text_xml dumps text retries fs = (true, N, N - 1, fs'))
    ∧ (∀ (dumps : Nat → PyStr) (text : PyStr) (retries : Nat) (fs : FS),
        (∀ i, i < retries → pyIn text (dumps i) = false) →
        ∃ fs', check_text_xml dumps text retries fs = (false, retries, retries, fs'))
    ∧ (∀ (xpSeq : Nat → Except Unit (List Element)) (N : Nat) (x y : Int)
        (rest : List Int) (more : List (List Int)),
        0 < N → N ≤ 15 →
        (∀ i, i < N - 1 → get_coordinates_xml (xpSeq i) = Except.ok []) →
        get_coordinates_xml (xpSeq (N - 1)) = Except.ok ((x :: y :: rest) :: more) →
        click_coordinates_xml xpSeq 0
          = Except.ok (ClickResult.success x y N (N - 1)))
    ∧ (∀ (xpSeq : Nat → Except Unit (List Element)) (index : Int),
        (∀ i, i < 15 → get_coordinates_xml (xpSeq i) = Except.ok []) →
        click_coordinates_xml xpSeq index
          = Except.ok (ClickResult.failure 15 15)) := by
  refine ⟨?_, ?_, ?_, ?_⟩
  · intro dumps text retries N fs hN hNr hbefore hat
    obtain ⟨fs', hfs'⟩ := check_text_go_succ dumps text (N - 1) retries 0 0 fs
      (by omega) (fun i hi => by simpa using hbefore i hi) (by simpa using hat)
    refine ⟨fs', ?_⟩
    have e1 : 0 + (N - 1) + 1 = N := by omega
    have e2 : 0 + (N - 1) = N - 1 := by omega
    rw [check_text_xml, hfs', e1, e2]
  · intro dumps text retries fs h
    obtain ⟨fs', hfs'⟩ := check_text_go_fail dumps text retries 0 0 fs
      (fun i hi => by simpa using h i hi)
    refine ⟨fs', ?_⟩
    have e : 0 + retries = retries := by omega
    rw [check_text_xml, hfs', e]
  · intro xpSeq N x y rest more hN hN15 hbefore hat
    have h := click_go_succ xpSeq (N - 1) 15 0 x y rest more (by omega)
      (fun i hi => by simpa using hbefore i hi) (by simpa using hat)
    have e1 : 0 + (N - 1) + 1 = N := by omega
    have e2 : 0 + (N - 1) = N - 1 := by omega
    rw [click_coordinates_xml, h, e1, e2]
  · intro xpSeq index h
    have hfail := click_go_fail xpSeq index 15 0 (fun i hi => by simpa using h i hi)
    rw [click_coordinates_xml, hfail]

/-- C4 witness: text `"b"` appearing in the second dump is found after 2
dumps and 1 sleep; text never present under budget 3 fails after 3 dumps and
3 sleeps; an element with bounds `"[1,2][3,4]"` present at the first attempt
is clicked at `(1, 2)` after 1 dump; an element never present exhausts all 15
attempts. -/
theorem c4_polling_budgets_witness :
    (∃ fs', check_text_xml (fun i => if i = 1 then "ab".toList else [])
        ("b".toList) 30 ⟨[]⟩ = (true, 2, 1, fs'))
    ∧ (∃ fs', check_text_xml (fun _ => []) ("b".toList) 3 ⟨[]⟩ = (false, 3, 3, fs'))
    ∧ click_coordinates_xml
        (fun _ => Except.ok [Element.mk [("bounds".toList, "[1,2][3,4]".toList)]]) 0
        = Except.ok (ClickResult.success 1 2 1 0)
    ∧ click_coordinates_xml (fun _ => Except.ok []) 0
        = Except.ok (ClickResult.failure 15 15) := by
  refine ⟨?_, ?_, ?_, ?_⟩
  · have hb : ∀ i, i < 2 - 1 →
        pyIn ("b".toList) ((fun j => if j = 1 then "ab".toList else ([] : PyStr)) i)
          = false := by
      intro i hi
      have h0 : i = 0 := by omega
      subst h0
      rfl
    exact c4_polling_budgets.1 _ _ 30 2 ⟨[]⟩ (by omega) (by omega) hb (by rfl)
  · exact c4_polling_budgets.2.1 _ _ 3 ⟨[]⟩ (fun i _ => rfl)
  · exact c4_polling_budgets.2.2.1 _ 1 1 2 [] []
      (by omega) (by omega) (fun i hi => absurd hi (by omega)) (by rfl)
  · exact c4_polling_budgets.2.2.2 _ 0 (fun i _ => rfl)

/-- C7: round trip through the dump file — a dump written by `dump_xml` is
read back unchanged, so `check_text_xml` (over a device whose hierarchy stays
at `content`) succeeds immediately for every substring of the dumped content
and exhausts its budget for every non-substring. -/
theorem c7_round_trip (content text : PyStr) (retries : Nat) (fs : FS)
    (hr : 0 < retries) :
    readDump (writeDump content fs) = content
    ∧ (text <:+: content →
        check_text_xml (fun _ => content) text retries fs
          = (true, 1, 0, writeDump content fs))
    ∧ (¬ text <:+: content →
        ∃ fs', check_text_xml (fun _ => content) text retries fs
          = (false, retries, retries, fs')) := by
  refine ⟨rfl, ?_, ?_⟩
  · intro hin
    obtain ⟨r, rfl⟩ := Nat.exists_eq_add_of_lt hr
    rw [check_text_xml, show 0 + r + 1 = r + 1 from by omega, check_text_xml_go]
    have hpy : pyIn text (readDump (writeDump ((fun _ : Nat => content) 0) fs))
        = true := by
      show pyIn text content = true
      exact (pyIn_iff_substring text content).mpr hin
    rw [if_pos hpy]
  · intro hout
    obtain ⟨fs', hfs'⟩ := check_text_go_fail (fun _ => content) text retries 0 0 fs
      (fun i _ => by
        show pyIn text content = false
        cases hpi : pyIn text content with
        | true => exact absurd ((pyIn_iff_substring text content).mp hpi) hout
        | false => rfl)
    refine ⟨fs', ?_⟩
    have e : 0 + retries = retries := by omega
    rw [check_text_xml, hfs', e]

/-- C7 witness: `"b"` is a substring of the dumped `"ab"` and is found at
once; `"z"` is not a substring and budget 2 is exhausted. -/
theorem c7_round_trip_witness :
    ("b".toList <:+: "ab".toList)
    ∧ check_text_xml (fun _ => "ab".toList) ("b".toList) 30 ⟨[]⟩
        = (true, 1, 0, writeDump ("ab".toList) ⟨[]⟩)
    ∧ ¬ ("z".toList <:+: "ab".toList)
    ∧ ∃ fs', check_text_xml (fun _ => "ab".toList) ("z".toList) 2 ⟨[]⟩
        = (false, 2, 2, fs') := by
  have h1 : ("b".toList) <:+: ("ab".toList) := ⟨['a'], [], rfl⟩
  have h2 : ¬ ("z".toList <:+: "ab".toList) := by
    intro hq
    have hpy := (pyIn_iff_substring ("z".toList) ("ab".toList)).mpr hq
    have hf : pyIn ("z".toList) ("ab".toList) = false := by rfl
    rw [hf] at hpy
    cases hpy
  exact ⟨h1, (c7_round_trip _ _ 30 ⟨[]⟩ (by omega)).2.1 h1, h2,
    (c7_round_trip _ _ 2 ⟨[]⟩ (by omega)).2.2 h2⟩

/-- C9: `click_coordinates_image` never returns `True`: it returns `False`
when the image is not found, and returns `None` (after issuing the tap) when
it is, so its return value cannot positively confirm a click. -/
theorem c9_click_image_never_true :
    ∀ (result : List (List ℚ)) (tw th : Nat),
      (click_coordinates_image result tw th).1 ≠ some true
      ∧ (get_coordinates_image result tw th 1 = none →
          click_coordinates_image result tw th = (some false, []))
      ∧ (∀ x y, get_coordinates_image result tw th 1 = some (x, y) →
          click_coordinates_image result tw th = (none, [(x, y)])) := by
  intro result tw th
  refine ⟨?_, ?_, ?_⟩
  · cases h : get_coordinates_image result tw th 1 with
    | none => simp [click_coordinates_image, h]
    | some p =>
      obtain ⟨x, y⟩ := p
      simp [click_coordinates_image, h]
  · intro h
    simp [click_coordinates_image, h]
  · intro x y h
    simp [click_coordinates_image, h]

/-- C9 witness: an all-below-threshold score matrix produces `(False, no
taps)`; a qualifying score produces `(None, one tap at the centre offset)`. -/
theorem c9_click_image_never_true_witness :
    get_coordinates_image ([[0]] : List (List ℚ)) 2 2 1 = none
    ∧ click_coordinates_image [[0]] 2 2 = (some false, [])
    ∧ get_coordinates_image ([[5]] : List (List ℚ)) 2 2 1 = some (1, 1)
    ∧ click_coordinates_image [[5]] 2 2 = (none, [(1, 1)]) := by
  have h0 : get_coordinates_image ([[0]] : List (List ℚ)) 2 2 1 = none := by
    rfl
  have h5 : get_coordinates_image ([[5]] : List (List ℚ)) 2 2 1 = some (1, 1) := by
    rfl
  exact ⟨h0, (c9_click_image_never_true [[0]] 2 2).2.1 h0, h5,
    (c9_click_image_never_true [[5]] 2 2).2.2 1 1 h5⟩

/-! ### Text entry: `ADB.send_text` (claim C5) -/

/-- UTF-8 encoding of one character: `char.encode("utf-8")`. -/
def utf8Bytes (c : Char) : List Nat :=
  if c.toNat < 128 then [c.toNat]
  else if c.toNat < 2048 then
    [192 + c.toNat / 64, 128 + c.toNat % 64]
  else if c.toNat < 65536 then
    [224 + c.toNat / 4096, 128 + c.toNat / 64 % 64, 128 + c.toNat % 64]
  else
    [240 + c.toNat / 262144, 128 + c.toNat / 4096 % 64, 128 + c.toNat / 64 % 64,
      128 + c.toNat % 64]

/-- UTF-8 encoding of a whole string: `text.encode("utf-8")`. -/
def utf8Encode (s : PyStr) : List Nat :=
  (s.map utf8Bytes).join

/-- Character `n` of the standard base64 alphabet. -/
def b64Char (n : Nat) : Char :=
  (("ABCDEFGHIJKLMNOPQRSTUVWXYZabcdefghijklmnopqrstuvwxyz0123456789+/").toList).getD n 'A'

/-- `base64.b64encode` of a byte list, with `'='` padding. -/
def b64Encode : List Nat → PyStr
  | [] => []
  | [b1] => [b64Char (b1 / 4), b64Char (b1 % 4 * 16), '=', '=']
  | [b1, b2] =>
    [b64Char (b1 / 4), b64Char (b1 % 4 * 16 + b2 / 16), b64Char (b2 % 16 * 4), '=']
  | b1 :: b2 :: b3 :: rest =>
    [b64Char (b1 / 4), b64Char (b1 % 4 * 16 + b2 / 16),
      b64Char (b2 % 16 * 4 + b3 / 64), b64Char (b3 % 64)] ++ b64Encode rest

/-- The custom-keyboard activation command of the source. -/
def imeVnCmd : PyStr :=
  ("ime set com.android.adbkeyboard/.AdbIME").toList

/-- The system input-method activation command of the source. -/
def imeSysCmd : PyStr :=
  ("ime set com.android.inputmethod.pinyin/.InputService").toList

/-- The broadcast command carrying a base64 payload. -/
def broadcastCmd (payload : PyStr) : PyStr :=
  ("am broadcast -a ADB_INPUT_B64 --es msg ").toList ++ payload

/-- The raw-text command with its single-quote wrapping. -/
def inputTextCmd (payload : PyStr) : PyStr :=
  ("input text ").toList ++ Char.ofNat 39 :: (payload ++ [Char.ofNat 39])

/-- `ADB.send_text(text, use_vn_keyboard, slow_typing)`: the list of shell
invocations issued, in order.  Both backends first issue their `ime set`
invocation (followed by a one-second sleep, which is not a shell call); slow
typing then loops over the characters issuing one invocation each, batch mode
issues a single invocation carrying the whole payload. -/
def send_text (text : PyStr) (use_vn_keyboard slow_typing : Bool) : List PyStr :=
  if use_vn_keyboard then
    imeVnCmd ::
      (if slow_typing then
        text.map (fun c => broadcastCmd (b64Encode (utf8Bytes c)))
      else [broadcastCmd (b64Encode (utf8Encode text))])
  else
    imeSysCmd ::
      (if slow_typing then text.map (fun c => inputTextCmd [c])
      else [inputTextCmd text])

/-- C5: after the IME-setup invocation, slow/per-character mode issues exactly
one shell invocation per character of the input (each carrying that character,
base64-encoded for the custom-keyboard backend, quoted raw for the system
one), and batch mode issues exactly one invocation carrying the whole string. -/
theorem c5_send_text_invocations (text : PyStr) (vn : Bool) :
    (send_text text vn true).length = text.length + 1
    ∧ (send_text text vn true).drop 1
        = text.map (fun c =>
            if vn then broadcastCmd (b64Encode (utf8Bytes c)) else inputTextCmd [c])
    ∧ (send_text text vn false).length = 2
    ∧ (send_text text vn false).drop 1
        = [if vn then broadcastCmd (b64Encode (utf8Encode text))
           else inputTextCmd text] := by
  cases vn <;> simp [send_text]

/-! ### `NodeChecker` (claims C6, C8) -/

/-- `kwargs.get(key, default)`. -/
def kwGet (kwargs : List (PyStr × Val)) (k : PyStr) (d : Val) : Val :=
  (kwargs.lookup k).getD d

/-- Evaluating `html.parse(dump).xpath(expected_value)` when the kwargs value
may be a non-string: lxml raises on an int expression, and that raise happens
inside `find_xml`'s guarded call, so it is swallowed like any other evaluation
failure. -/
def evalVal (xp : PyStr → Except Unit (List Element)) :
    Val → Except Unit (List Element)
  | Val.vint _ => Except.error ()
  | Val.vstr s => xp s

/-- Inner loop of `NodeChecker.is_element_checked`: iterate all kwargs items
in order (including `repeat` and `index` themselves, whose int values simply
fail the XPath evaluation and never match), returning the first name whose
`find_xml` coordinate list is truthy; exceptions from `find_xml` propagate. -/
def iec_scan (evalE : Val → Except Unit (List Element)) (iv : Val) :
    List (PyStr × Val) → Except PyErr (Option PyStr)
  | [] => Except.ok none
  | (name, v) :: rest =>
    match find_xml_v (evalE v) iv with
    | Except.error e => Except.error e
    | Except.ok (coords, _) =>
      if coords.isEmpty then iec_scan evalE iv rest else Except.ok (some name)

/-- Outer loop of `is_element_checked`: up to the attempt budget, dump and
scan; `"notElement"` once the budget is exhausted. -/
def iec_go (xpEval : Nat → PyStr → Except Unit (List Element))
    (kwargs : List (PyStr × Val)) (iv : Val) :
    Nat → Nat → Except PyErr PyStr
  | _, 0 => Except.ok (("notElement").toList)
  | k, n + 1 =>
    match iec_scan (evalVal (xpEval k)) iv kwargs with
    | Except.error e => Except.error e
    | Except.ok (some name) => Except.ok name
    | Except.ok none => iec_go xpEval kwargs iv (k + 1) n

/-- `NodeChecker.is_element_checked(**kwargs)`:
`max_attempts = kwargs.get("repeat", 20)` (a string value would make
`range(max_attempts)` raise `TypeError` before any attempt),
`index = kwargs.get("index", 0)`; then up to `max_attempts` rounds of dump and
scan, the sentinel string on exhaustion.  `xpEval k` evaluates an XPath
expression against the `k`-th dump. -/
def is_element_checked (xpEval : Nat → PyStr → Except Unit (List Element))
    (kwargs : List (PyStr × Val)) : Except PyErr PyStr :=
  match kwGet kwargs (("repeat").toList) (Val.vint 20) with
  | Val.vstr _ => Except.error PyErr.typeError
  | Val.vint maxAttempts =>
    iec_go xpEval kwargs (kwGet kwargs (("index").toList) (Val.vint 0)) 0
      maxAttempts.toNat

theorem iec_scan_none (evalE : Val → Except Unit (List Element)) (iv : Val)
    (kwargs : List (PyStr × Val))
    (h : ∀ nv ∈ kwargs, find_xml_v (evalE nv.2) iv = Except.ok ([], none)) :
    iec_scan evalE iv kwargs = Except.ok none := by
  induction kwargs with
  | nil => rfl
  | cons nv rest ih =>
    obtain ⟨name, v⟩ := nv
    rw [iec_scan, h (name, v) (List.mem_cons_self _ _)]
    show iec_scan evalE iv rest = Except.ok none
    exact ih (fun nv hm => h nv (List.mem_cons_of_mem _ hm))

theorem iec_scan_found (evalE : Val → Except Unit (List Element)) (iv : Val)
    (pre post : List (PyStr × Val)) (name : PyStr) (v : Val)
    (c : List Int) (cs : List (List Int)) (el : Option Element)
    (hpre : ∀ nv ∈ pre, find_xml_v (evalE nv.2) iv = Except.ok ([], none))
    (hv : find_xml_v (evalE v) iv = Except.ok (c :: cs, el)) :
    iec_scan evalE iv (pre ++ (name, v) :: post) = Except.ok (some name) := by
  induction pre with
  | nil =>
    rw [List.nil_append, iec_scan, hv]
    rfl
  | cons nv pre' ih =>
    obtain ⟨nm, vv⟩ := nv
    rw [List.cons_append, iec_scan, hpre (nm, vv) (List.mem_cons_self _ _)]
    show iec_scan evalE iv (pre' ++ (name, v) :: post) = Except.ok (some name)
    exact ih (fun nv hm => hpre nv (List.mem_cons_of_mem _ hm))

theorem iec_go_exhaust (xpEval : Nat → PyStr → Except Unit (List Element))
    (kwargs : List (PyStr × Val)) (iv : Val) (n : Nat) :
    ∀ k : Nat,
      (∀ i, i < n → iec_scan (evalVal (xpEval (k + i))) iv kwargs = Except.ok none) →
      iec_go xpEval kwargs iv k n = Except.ok (("notElement").toList) := by
  induction n with
  | zero => intro k _; rfl
  | succ n ih =>
    intro k h
    have h0 : iec_scan (evalVal (xpEval k)) iv kwargs = Except.ok none := by
      simpa using h 0 (Nat.succ_pos n)
    rw [iec_go, h0]
    exact ih (k + 1) (fun i hi => by
      have := h (i + 1) (Nat.succ_lt_succ hi)
      simpa [Nat.add_assoc, Nat.add_comm 1 i] using this)

theorem iec_go_found (xpEval : Nat → PyStr → Except Unit (List Element))
    (kwargs : List (PyStr × Val)) (iv : Val) (name : PyStr) (m : Nat) :
    ∀ (n k : Nat), m < n →
      (∀ i, i < m → iec_scan (evalVal (xpEval (k + i))) iv kwargs = Except.ok none) →
      iec_scan (evalVal (xpEval (k + m))) iv kwargs = Except.ok (some name) →
      iec_go xpEval kwargs iv k n = Except.ok name := by
  induction m with
  | zero =>
    intro n k hm _ hat
    obtain ⟨n', rfl⟩ := Nat.exists_eq_add_of_lt hm
    rw [show k + 0 = k from rfl] at hat
    rw [show 0 + n' + 1 = n' + 1 from by omega, iec_go, hat]
  | succ m ih =>
    intro n k hm hbefore hat
    obtain ⟨n', rfl⟩ := Nat.exists_eq_add_of_lt hm
    have h0 : iec_scan (evalVal (xpEval k)) iv kwargs = Except.ok none := by
      simpa using hbefore 0 (Nat.succ_pos m)
    rw [show m + 1 + n' + 1 = (m + 1 + n') + 1 from rfl, iec_go, h0]
    exact ih (m + 1 + n') (k + 1) (by omega)
      (fun i hi => by
        have := hbefore (i + 1) (Nat.succ_lt_succ hi)
        simpa [Nat.add_assoc, Nat.add_comm 1 i] using this)
      (by
        have e : k + 1 + m = k + (m + 1) := by omega
        rw [e]
        exact hat)

/-- The kwargs of an `is_element_checked` call carrying an explicit attempt
budget ahead of the named conditions. -/
def iecKwargs (B : Int) (conds : List (PyStr × Val)) : List (PyStr × Val) :=
  (("repeat").toList, Val.vint B) :: conds

/-- The index value such a call passes to `find_xml` (its kwargs default `0`
unless a condition is literally named `index`). -/
def iecIndex (B : Int) (conds : List (PyStr × Val)) : Val :=
  kwGet (iecKwargs B conds) (("index").toList) (Val.vint 0)

/-- C6: `is_element_checked` with attempt budget `B`: on the first attempt on
which any condition's expression matches, it returns the name of the first
matching condition in kwargs order (earlier items — including the budget
entry itself, whose int value never matches — all yield empty coordinate
lists); and when no condition matches on any attempt within the budget it
returns the sentinel `"notElement"` without raising. -/
theorem c6_element_checker :
    (∀ (xpEval : Nat → PyStr → Except Unit (List Element)) (B : Int)
        (pre post : List (PyStr × Val)) (name : PyStr) (v : Val) (m : Nat)
        (c : List Int) (cs : List (List Int)) (el : Option Element),
        m < B.toNat →
        (∀ i, i < m → ∀ nv ∈ pre ++ (name, v) :: post,
          find_xml_v (evalVal (xpEval i) nv.2)
            (iecIndex B (pre ++ (name, v) :: post)) = Except.ok ([], none)) →
        (∀ nv ∈ pre,
          find_xml_v (evalVal (xpEval m) nv.2)
            (iecIndex B (pre ++ (name, v) :: post)) = Except.ok ([], none)) →
        find_xml_v (evalVal (xpEval m) v)
            (iecIndex B (pre ++ (name, v) :: post)) = Except.ok (c :: cs, el) →
        is_element_checked xpEval (iecKwargs B (pre ++ (name, v) :: post))
          = Except.ok name)
    ∧ (∀ (xpEval : Nat → PyStr → Except Unit (List Element)) (B : Int)
        (conds : List (PyStr × Val)),
        (∀ i, i < B.toNat → ∀ nv ∈ conds,
          find_xml_v (evalVal (xpEval i) nv.2) (iecIndex B conds)
            = Except.ok ([], none)) →
        is_element_checked xpEval (iecKwargs B conds)
          = Except.ok (("notElement").toList)) := by
  constructor
  · intro xpEval B pre post name v m c cs el hm hbefore hpre hmatch
    show iec_go xpEval (iecKwargs B (pre ++ (name, v) :: post))
      (iecIndex B (pre ++ (name, v) :: post)) 0 B.toNat = Except.ok name
    refine iec_go_found xpEval _ _ name m B.toNat 0 hm ?_ ?_
    · intro i hi
      refine iec_scan_none _ _ _ (fun nv hnv => ?_)
      rcases List.mem_cons.mp hnv with h | h
      · subst h
        rfl
      · simpa using hbefore i hi nv h
    · have hshape : iecKwargs B (pre ++ (name, v) :: post)
          = ((("repeat").toList, Val.vint B) :: pre) ++ (name, v) :: post := by
        simp [iecKwargs]
      rw [hshape]
      refine iec_scan_found _ _ _ post name v c cs el (fun nv hnv => ?_)
        (by simpa using hmatch)
      rcases List.mem_cons.mp hnv with h | h
      · subst h
        rfl
      · simpa using hpre nv h
  · intro xpEval B conds h
    show iec_go xpEval (iecKwargs B conds) (iecIndex B conds) 0 B.toNat
      = Except.ok (("notElement").toList)
    refine iec_go_exhaust xpEval _ _ B.toNat 0 (fun i hi => ?_)
    refine iec_scan_none _ _ _ (fun nv hnv => ?_)
    rcases List.mem_cons.mp hnv with hh | hh
    · subst hh
      rfl
    · simpa using h i (by simpa using hi) nv hh

/-- C6 witness: one condition `"btn"` that first matches on the second
attempt (budget 20) is reported by name; a never-matching condition under
budget 2 yields the sentinel. -/
theorem c6_element_checker_witness :
    (1 < (20 : Int).toNat)
    ∧ is_element_checked
        (fun k _ => if k = 0 then Except.ok [] else
          Except.ok [Element.mk [(("bounds").toList, ("[1,2][3,4]").toList)]])
        (iecKwargs 20 [(("btn").toList, Val.vstr (("xp").toList))])
        = Except.ok (("btn").toList)
    ∧ is_element_checked (fun _ _ => Except.ok [])
        (iecKwargs 2 [(("btn").toList, Val.vstr (("xp").toList))])
        = Except.ok (("notElement").toList) := by
  refine ⟨by decide, ?_, ?_⟩
  · exact c6_element_checker.1
      (fun k _ => if k = 0 then Except.ok [] else
        Except.ok [Element.mk [(("bounds").toList, ("[1,2][3,4]").toList)]])
      20 [] [] (("btn").toList) (Val.vstr (("xp").toList)) 1
      [1, 2] [] (some (Element.mk [(("bounds").toList, ("[1,2][3,4]").toList)]))
      (by decide)
      (fun i hi nv hnv => by
        have h0 : i = 0 := by omega
        subst h0
        rcases List.mem_cons.mp hnv with h | h
        · subst h
          rfl
        · cases h)
      (fun nv hnv => absurd hnv (List.not_mem_nil nv))
      (by rfl)
  · exact c6_element_checker.2 (fun _ _ => Except.ok []) 2
      [(("btn").toList, Val.vstr (("xp").toList))]
      (fun i hi nv hnv => by
        rcases List.mem_cons.mp hnv with h | h
        · subst h
          rfl
        · cases h)

/-- Outcome of `NodeChecker.check_xml_element`: whether it clicked, where,
and how many dumps/sleeps it took. -/
inductive CheckResult where
  | success (x y : Int) (clicked : Bool) (dumps sleeps : Nat)
  | failure (dumps sleeps : Nat)
  deriving DecidableEq, Repr

/-- Loop worker for `NodeChecker.check_xml_element`: each attempt fetches the
element's coordinates from a fresh dump (exceptions propagate); on a truthy
list with `index < len(coordinates)` it unpacks `x, y = coordinates[index]`
(a tuple of another arity would raise `ValueError`), clicks when requested,
and returns `True`; otherwise — including a found list whose index is out of
range — it sleeps and retries, returning `False` on exhaustion. -/
def check_xml_go (xpSeq : Nat → Except Unit (List Element)) (index : Int)
    (click : Bool) : Nat → Nat → Except PyErr CheckResult
  | k, 0 => Except.ok (CheckResult.failure k k)
  | k, n + 1 =>
    match get_coordinates_xml (xpSeq k) with
    | Except.error e => Except.error e
    | Except.ok coords =>
      if coords.isEmpty then check_xml_go xpSeq index click (k + 1) n
      else if index < (coords.length : Int) then
        match pyGet coords index with
        | none => Except.error PyErr.indexError
        | some tup =>
          match tup with
          | [x, y] => Except.ok (CheckResult.success x y click (k + 1) k)
          | _ => Except.error PyErr.valueError
      else check_xml_go xpSeq index click (k + 1) n

/-- `NodeChecker.check_xml_element(element, repeat, index, click)` with its
kwargs defaults `repeat = 20`, `index = 0`, `click = True`. -/
def check_xml_element (xpSeq : Nat → Except Unit (List Element))
    (maxAttempts : Int) (index : Int) (click : Bool) : Except PyErr CheckResult :=
  check_xml_go xpSeq index click 0 maxAttempts.toNat

theorem check_xml_go_fail (xpSeq : Nat → Except Unit (List Element))
    (index : Int) (click : Bool) (n : Nat) :
    ∀ k : Nat,
      (∀ i, i < n → ∃ tups, get_coordinates_xml (xpSeq (k + i)) = Except.ok tups
        ∧ (tups.isEmpty = true ∨ ¬ index < (tups.length : Int))) →
      check_xml_go xpSeq index click k n
        = Except.ok (CheckResult.failure (k + n) (k + n)) := by
  induction n with
  | zero => intro k _; rfl
  | succ n ih =>
    intro k h
    obtain ⟨tups, htup, hmiss⟩ := h 0 (Nat.succ_pos n)
    rw [show k + 0 = k from rfl] at htup
    have hrec := ih (k + 1) (fun i hi => by
      obtain ⟨t, ht, hmi⟩ := h (i + 1) (Nat.succ_lt_succ hi)
      exact ⟨t, by simpa [Nat.add_assoc, Nat.add_comm 1 i] using ht, hmi⟩)
    rw [check_xml_go, htup]
    rcases hmiss with he | hoor
    · show (if tups.isEmpty then check_xml_go xpSeq index click (k + 1) n
        else _) = _
      rw [if_pos he, hrec]
      have e : k + 1 + n = k + (n + 1) := by omega
      rw [e]
    · by_cases he : tups.isEmpty = true
      · show (if tups.isEmpty then check_xml_go xpSeq index click (k + 1) n
          else _) = _
        rw [if_pos he, hrec]
        have e : k + 1 + n = k + (n + 1) := by omega
        rw [e]
      · show (if tups.isEmpty then check_xml_go xpSeq index click (k + 1) n
          else if index < (tups.length : Int) then _ else
            check_xml_go xpSeq index click (k + 1) n) = _
        rw [if_neg he, if_neg hoor, hrec]
        have e : k + 1 + n = k + (n + 1) := by omega
        rw [e]

theorem check_xml_go_succ (xpSeq : Nat → Except Unit (List Element))
    (index : Int) (click : Bool) (m : Nat) :
    ∀ (n k : Nat) (tups : List (List Int)) (x y : Int), m < n →
      (∀ i, i < m → get_coordinates_xml (xpSeq (k + i)) = Except.ok []) →
      get_coordinates_xml (xpSeq (k + m)) = Except.ok tups →
      tups.isEmpty = false →
      index < (tups.length : Int) →
      pyGet tups index = some [x, y] →
      check_xml_go xpSeq index click k n
        = Except.ok (CheckResult.success x y click (k + m + 1) (k + m)) := by
  induction m with
  | zero =>
    intro n k tups x y hm _ htup hne hlt hget
    obtain ⟨n', rfl⟩ := Nat.exists_eq_add_of_lt hm
    rw [show k + 0 = k from rfl] at htup
    rw [show 0 + n' + 1 = n' + 1 from by omega, check_xml_go, htup]
    show (if tups.isEmpty then check_xml_go xpSeq index click (k + 1) n'
      else if index < (tups.length : Int) then _ else
        check_xml_go xpSeq index click (k + 1) n') = _
    rw [hne]
    simp only [Bool.false_eq_true, if_false]
    rw [if_pos hlt, hget]
    show Except.ok (CheckResult.success x y click (k + 1) k) = _
    rw [show k + 0 = k from rfl]
  | succ m ih =>
    intro n k tups x y hm hbefore htup hne hlt hget
    obtain ⟨n', rfl⟩ := Nat.exists_eq_add_of_lt hm
    have h0 : get_coordinates_xml (xpSeq k) = Except.ok [] := by
      simpa using hbefore 0 (Nat.succ_pos m)
    rw [show m + 1 + n' + 1 = (m + 1 + n') + 1 from rfl, check_xml_go, h0]
    show check_xml_go xpSeq index click (k + 1) (m + 1 + n') = _
    rw [ih (m + 1 + n') (k + 1) tups x y (by omega)
      (fun i hi => by
        have := hbefore (i + 1) (Nat.succ_lt_succ hi)
        simpa [Nat.add_assoc, Nat.add_comm 1 i] using this)
      (by
        have e : k + 1 + m = k + (m + 1) := by omega
        rw [e]
        exact htup)
      hne hlt hget]
    have e1 : k + 1 + m + 1 = k + (m + 1) + 1 := by omega
    have e2 : k + 1 + m = k + (m + 1) := by omega
    rw [e1, e2]

/-- C8: `check_xml_element` polls the element's coordinates up to its attempt
budget: when coordinates are found on the `N`-th attempt with the index in
range, it unpacks the indexed pair, optionally clicks, and returns `True`
(recording the click request); when the budget is exhausted without an
in-range find — every attempt yielding either no coordinates or an index out
of range — it returns `False`. -/
theorem c8_check_xml_element :
    (∀ (xpSeq : Nat → Except Unit (List Element)) (maxA index : Int)
        (click : Bool) (N : Nat) (tups : List (List Int)) (x y : Int),
        0 < N → N ≤ maxA.toNat →
        (∀ i, i < N - 1 → get_coordinates_xml (xpSeq i) = Except.ok []) →
        get_coordinates_xml (xpSeq (N - 1)) = Except.ok tups →
        tups.isEmpty = false →
        index < (tups.length : Int) →
        pyGet tups index = some [x, y] →
        check_xml_element xpSeq maxA index click
          = Except.ok (CheckResult.success x y click N (N - 1)))
    ∧ (∀ (xpSeq : Nat → Except Unit (List Element)) (maxA index : Int)
        (click : Bool),
        (∀ i, i < maxA.toNat → ∃ tups,
          get_coordinates_xml (xpSeq i) = Except.ok tups
          ∧ (tups.isEmpty = true ∨ ¬ index < (tups.length : Int))) →
        check_xml_element xpSeq maxA index click
          = Except.ok (CheckResult.failure maxA.toNat maxA.toNat)) := by
  constructor
  · intro xpSeq maxA index click N tups x y hN hNle hbefore htup hne hlt hget
    have h := check_xml_go_succ xpSeq index click (N - 1) maxA.toNat 0 tups x y
      (by omega) (fun i hi => by simpa using hbefore i hi)
      (by simpa using htup) hne hlt hget
    have e1 : 0 + (N - 1) + 1 = N := by omega
    have e2 : 0 + (N - 1) = N - 1 := by omega
    rw [check_xml_element, h, e1, e2]
  · intro xpSeq maxA index click h
    have hf := check_xml_go_fail xpSeq index click maxA.toNat 0
      (fun i hi => by simpa using h i hi)
    have e : 0 + maxA.toNat = maxA.toNat := by omega
    rw [check_xml_element, hf, e]

/-- C8 witness: an element with bounds `"[1,2][3,4]"` found on the first
attempt at index 0 is clicked at `(1, 2)`; the same element polled with the
out-of-range index 5 exhausts a budget of 2 and returns the failure flag. -/
theorem c8_check_xml_element_witness :
    (0 : Int) < (([[1, 2]] : List (List Int)).length : Int)
    ∧ check_xml_element
        (fun _ => Except.ok [Element.mk [(("bounds").toList, ("[1,2][3,4]").toList)]])
        20 0 true
        = Except.ok (CheckResult.success 1 2 true 1 0)
    ∧ check_xml_element
        (fun _ => Except.ok [Element.mk [(("bounds").toList, ("[1,2][3,4]").toList)]])
        2 5 true
        = Except.ok (CheckResult.failure 2 2) := by
  refine ⟨by decide, ?_, ?_⟩
  · exact c8_check_xml_element.1 _ 20 0 true 1 [[1, 2]] 1 2
      (by omega) (by decide) (fun i hi => absurd hi (by omega))
      (by rfl) (by rfl) (by decide) (by rfl)
  · exact c8_check_xml_element.2 _ 2 5 true
      (fun i _ => ⟨[[1, 2]], by rfl, Or.inr (by decide)⟩)

/-- C10: index selection is not guarded by the swallow-to-no-match policy:
when the path expression matches at least one element (whose bounds all
parse), a requested index at least the number of matches makes `find_xml`
raise `IndexError`; and `click_coordinates_xml` raises `IndexError` when its
index is out of range of the found coordinates instead of returning `False`. -/
theorem c10_unguarded_index :
    (∀ (es : List Element) (cs : List (List Int)) (index : Int),
        es ≠ [] →
        get_coordinates_xml (Except.ok es) = Except.ok cs →
        (es.length : Int) ≤ index →
        find_xml (Except.ok es) index = Except.error PyErr.indexError)
    ∧ (∀ (xpSeq : Nat → Except Unit (List Element)) (index : Int)
        (tups : List (List Int)),
        get_coordinates_xml (xpSeq 0) = Except.ok tups →
        tups ≠ [] →
        pyGet tups index = none →
        click_coordinates_xml xpSeq index = Except.error PyErr.indexError) := by
  constructor
  · intro es cs index hne hok hle
    rw [get_coordinates_xml] at hok
    have hlen : 0 < es.length := List.length_pos.mpr hne
    have hnone : pyGet es index = none := by
      rw [pyGet, if_neg (by omega)]
      exact List.get?_eq_none.mpr (by omega)
    have hemp : es.isEmpty = false := by
      cases es with
      | nil => exact absurd rfl hne
      | cons a l => rfl
    rw [find_xml, find_xml_v]
    cases hm1 : mapExcept elementBoundsStrs es with
    | error e =>
      simp only [hm1] at hok
      cases hok
    | ok strss =>
      cases hm2 : mapExcept tupleInts strss with
      | error e =>
        simp only [hm1, hm2] at hok
        cases hok
      | ok coords =>
        simp only [hm1, hm2, hemp, Bool.false_eq_true, if_false,
          pyIndexVal, hnone]
  · intro xpSeq index tups hok hne hget
    have hemp : tups.isEmpty = false := by
      cases tups with
      | nil => exact absurd rfl hne
      | cons a l => rfl
    rw [click_coordinates_xml, show (15 : Nat) = 14 + 1 from rfl, click_xml_go,
      hok]
    show (if tups.isEmpty then click_xml_go xpSeq index (0 + 1) 14
      else match pyGet tups index with
        | none => Except.error PyErr.indexError
        | some coords =>
          match pyGet coords 0 with
          | none => Except.error PyErr.indexError
          | some cx =>
            match pyGet coords 1 with
            | none => Except.error PyErr.indexError
            | some cy => Except.ok (ClickResult.success cx cy (0 + 1) 0)) = _
    rw [hemp]
    simp only [Bool.false_eq_true, if_false, hget]

/-- C10 witness: one matched element with well-formed bounds, requested at
index 5: `find_xml` raises `IndexError`; the polling click with index 5 over
the single found coordinate pair raises `IndexError` on its first attempt. -/
theorem c10_unguarded_index_witness :
    get_coordinates_xml
        (Except.ok [Element.mk [(("bounds").toList, ("[1,2][3,4]").toList)]])
        = Except.ok [[1, 2]]
    ∧ find_xml (Except.ok [Element.mk [(("bounds").toList, ("[1,2][3,4]").toList)]]) 5
        = Except.error PyErr.indexError
    ∧ click_coordinates_xml
        (fun _ => Except.ok [Element.mk [(("bounds").toList, ("[1,2][3,4]").toList)]]) 5
        = Except.error PyErr.indexError := by
  refine ⟨by rfl, ?_, ?_⟩
  · exact c10_unguarded_index.1 _ [[1, 2]] 5 (by simp) (by rfl) (by decide)
  · exact c10_unguarded_index.2 _ 5 [[1, 2]] (by rfl) (by simp) (by rfl)
